import Mathlib

/-!
Shallow embedding of the GoPine node agent's core job admission and
execution engine, verified against the natural-language specification.

Source files embedded here:
* `core/resource_monitor.py` — `ResourceMonitor` (sampling loop, averages,
  `can_accept_jobs`);
* `core/job_manager.py` — `JobManager` (queue, active set, completed set,
  `add_job`, the worker loop, `_execute_job`, `remove_completed_job`);
* `core/agent.py` — `NodeAgent.process_job_results` and
  `NodeAgent._can_process_jobs_now`;
* `jobs/base_job.py` / `jobs/factory.py` — `BaseJob.execute` outcome shape
  and the known job-type registry.

Python floats are modelled as rationals (the claims concern comparison and
averaging structure, not rounding), Python ints as `Int`/`Nat`, dicts as
association lists with dict-key semantics, and the concurrent loops as an
explicit operation alphabet interleaved by an arbitrary scheduler.
-/

namespace NodeAgent

/-! ## ResourceMonitor (core/resource_monitor.py) -/

/-- One sampling tick's readings: `psutil.cpu_percent`, `virtual_memory().percent`,
and `disk_usage("/").free // (1024*1024)`. -/
structure Reading where
  cpu : ℚ
  mem : ℚ
  disk : ℤ
deriving Repr, DecidableEq

/-- The fields of `ResourceMonitor` relevant to sampling and admission. -/
structure MonitorState where
  maxCpuPercent : ℚ
  maxMemoryPercent : ℚ
  minFreeDiskSpaceMb : ℤ
  currentCpuPercent : ℚ
  currentMemoryPercent : ℚ
  currentFreeDiskSpaceMb : ℤ
  avgCpuPercent : ℚ
  avgMemoryPercent : ℚ
  cpuHistory : List ℚ
  memoryHistory : List ℚ
  historySize : ℕ
deriving Repr, DecidableEq

/-- `ResourceMonitor.__init__`: zeroed readings, empty histories, history size 12. -/
def initMonitor (maxCpu maxMem : ℚ) (minDisk : ℤ) : MonitorState :=
  { maxCpuPercent := maxCpu
    maxMemoryPercent := maxMem
    minFreeDiskSpaceMb := minDisk
    currentCpuPercent := 0
    currentMemoryPercent := 0
    currentFreeDiskSpaceMb := 0
    avgCpuPercent := 0
    avgMemoryPercent := 0
    cpuHistory := []
    memoryHistory := []
    historySize := 12 }

/-- `ResourceMonitor.can_accept_jobs`: the three threshold checks, in source order. -/
def canAcceptJobs (m : MonitorState) : Bool :=
  if m.avgCpuPercent > m.maxCpuPercent then false
  else if m.avgMemoryPercent > m.maxMemoryPercent then false
  else if m.currentFreeDiskSpaceMb < m.minFreeDiskSpaceMb then false
  else true

/-- `if len(history) > self.history_size: history.pop(0)` — drop the oldest
entry when the ring buffer overflows. -/
def trimHistory (h : List ℚ) (size : ℕ) : List ℚ :=
  if size < h.length then h.tail else h

/-- One iteration of `ResourceMonitor._monitor_loop`: record current readings,
append to both histories, trim each to `history_size`, recompute the means. -/
def sampleStep (m : MonitorState) (r : Reading) : MonitorState :=
  let ch := trimHistory (m.cpuHistory ++ [r.cpu]) m.historySize
  let mh := trimHistory (m.memoryHistory ++ [r.mem]) m.historySize
  { m with
    currentCpuPercent := r.cpu
    currentMemoryPercent := r.mem
    currentFreeDiskSpaceMb := r.disk
    cpuHistory := ch
    memoryHistory := mh
    avgCpuPercent := ch.sum / (ch.length : ℚ)
    avgMemoryPercent := mh.sum / (mh.length : ℚ) }

/-- Run the monitor loop over a sequence of readings. -/
def runMonitor (m : MonitorState) (rs : List Reading) : MonitorState :=
  rs.foldl sampleStep m

/-- The last `n` elements of a list (the ring-buffer contents after feeding `l`). -/
def lastN (n : ℕ) (l : List α) : List α :=
  l.drop (l.length - n)

/-! ## JobManager (core/job_manager.py) -/

/-- The fields of a server job assignment the manager inspects:
`job_data.get("job_id")` and `job_data.get("job_type")`.  `none` models a
missing key; `some ""` models an empty (Python-falsy) string value. -/
structure JobData where
  jobId : Option String
  jobType : Option String
deriving Repr, DecidableEq

/-- The result dict produced by `BaseJob.execute` (payload details opaque). -/
inductive JobResult where
  | completedWith (payload : String)
  | failedWith (message : String)
deriving Repr, DecidableEq

/-- Keys of a Python dict modelled as an association list. -/
def assocKeys (l : List (String × JobResult)) : List String :=
  l.map Prod.fst

/-- Python dict assignment `d[k] = v`: overwrite in place if the key exists,
append otherwise. -/
def assocSet (l : List (String × JobResult)) (k : String) (v : JobResult) :
    List (String × JobResult) :=
  match l with
  | [] => [(k, v)]
  | (k1, v1) :: rest =>
      if k1 = k then (k, v) :: rest else (k1, v1) :: assocSet rest k v

/-- Python dict deletion `del d[k]` (no-op when the key is absent, matching the
`if k in d: del d[k]` guards in the source). -/
def assocErase (l : List (String × JobResult)) (k : String) :
    List (String × JobResult) :=
  match l with
  | [] => []
  | (k1, v1) :: rest =>
      if k1 = k then rest else (k1, v1) :: assocErase rest k

/-- Python dict assignment on a key set: `active_jobs[job_id] = job` adds the
key only if it is not already present. -/
def insertKey (l : List String) (k : String) : List String :=
  if k ∈ l then l else l ++ [k]

/-- The job types registered in `JobFactory.__init__`. -/
def knownJobTypes : List String := ["ocr", "pdf_parse"]

/-- `JobManager` shared state: the FIFO `job_queue`, the key set of
`active_jobs`, the `completed_jobs` dict, and the multiset of executions
submitted to the thread pool that have not yet finished (the in-flight
`_execute_job` calls). -/
structure JMState where
  jobQueue : List JobData
  activeJobs : List String
  completedJobs : List (String × JobResult)
  pendingExec : List String
deriving Repr, DecidableEq

/-- `JobManager.__init__`: everything empty. -/
def initJM : JMState := ⟨[], [], [], []⟩

/-- `JobManager.add_job`: reject when `job_id` is missing/falsy, reject when
the id is already in `active_jobs` or `completed_jobs`, otherwise append the
job data to the FIFO queue and return `True`. -/
def addJob (s : JMState) (jd : JobData) : Bool × JMState :=
  match jd.jobId with
  | none => (false, s)
  | some jid =>
      if jid = "" then (false, s)
      else if jid ∈ s.activeJobs ∨ jid ∈ assocKeys s.completedJobs then (false, s)
      else (true, { s with jobQueue := s.jobQueue ++ [jd] })

/-- One pass of `JobManager._worker_loop`: if there is no capacity or the queue
is empty, do nothing.  Otherwise pop the queue head; a missing/falsy `job_id`
is skipped; a missing `job_type` raises `ValueError` and an unregistered type
makes `JobFactory.create_job` raise — in both cases the error handler only
notifies failure (a logging stub) and drops the job.  On success the id enters
`active_jobs` and `_execute_job` is submitted to the executor. -/
def workerIteration (limit : ℕ) (s : JMState) : JMState :=
  if s.activeJobs.length < limit then
    match s.jobQueue with
    | [] => s
    | jd :: rest =>
        match jd.jobId with
        | none => { s with jobQueue := rest }
        | some jid =>
            if jid = "" then { s with jobQueue := rest }
            else
              match jd.jobType with
              | none => { s with jobQueue := rest }
              | some jt =>
                  if jt ∈ knownJobTypes then
                    { s with jobQueue := rest
                             activeJobs := insertKey s.activeJobs jid
                             pendingExec := s.pendingExec ++ [jid] }
                  else { s with jobQueue := rest }
  else s

/-- The tail of `JobManager._execute_job` when `job.execute()` returned a
result: under the lock, store the result in `completed_jobs` and delete the id
from `active_jobs` if present.  Guarded on an in-flight execution existing for
this id (the scheduler can only finish executions that were submitted). -/
def finishSuccess (s : JMState) (jid : String) (r : JobResult) : JMState :=
  if jid ∈ s.pendingExec then
    { s with completedJobs := assocSet s.completedJobs jid r
             activeJobs := s.activeJobs.erase jid
             pendingExec := s.pendingExec.erase jid }
  else s

/-- The `except` branch of `JobManager._execute_job`: delete the id from
`active_jobs` if present and notify failure (a logging stub — nothing is
recorded in `completed_jobs`). -/
def finishFailure (s : JMState) (jid : String) : JMState :=
  if jid ∈ s.pendingExec then
    { s with activeJobs := s.activeJobs.erase jid
             pendingExec := s.pendingExec.erase jid }
  else s

/-- `JobManager.remove_completed_job`. -/
def removeCompletedJob (s : JMState) (jid : String) : JMState :=
  { s with completedJobs := assocErase s.completedJobs jid }

/-- `JobManager.get_completed_jobs`: a (non-destructive) copy of the dict. -/
def getCompletedJobs (s : JMState) : List (String × JobResult) :=
  s.completedJobs

/-- The operation alphabet of the concurrent system: a server assignment
arriving (`add_job`), one worker-loop dispatch pass, an in-flight execution
finishing with a result or with an exception, and the agent acknowledging a
reported result (`remove_completed_job`). -/
inductive Op where
  | add (jd : JobData)
  | dispatch
  | finishOk (jid : String) (r : JobResult)
  | finishErr (jid : String)
  | ack (jid : String)
deriving Repr, DecidableEq

/-- Interleaving semantics: one scheduler-chosen operation. -/
def step (limit : ℕ) (s : JMState) : Op → JMState
  | .add jd => (addJob s jd).2
  | .dispatch => workerIteration limit s
  | .finishOk jid r => finishSuccess s jid r
  | .finishErr jid => finishFailure s jid
  | .ack jid => removeCompletedJob s jid

/-- Run a scheduled sequence of operations. -/
def runJM (limit : ℕ) (s : JMState) (ops : List Op) : JMState :=
  ops.foldl (step limit) s

/-- The job ids currently sitting in the pending FIFO queue. -/
def queueIds (q : List JobData) : List String :=
  q.filterMap JobData.jobId

/-! ## NodeAgent (core/agent.py) -/

/-- Outcome of `ServerAPI.send_job_result` as observed by
`process_job_results`: `True`, `False`, or a raised exception. -/
inductive ReportOutcome where
  | success
  | failure
  | error
deriving Repr, DecidableEq

/-- The loop body of `NodeAgent.process_job_results`: iterate over a snapshot
copy of the completed dict and call `remove_completed_job` exactly on the
entries whose report returned `True`; a `False` return or an exception leaves
the entry in place. -/
def flushLoop (snapshot : List (String × JobResult))
    (report : String → JobResult → ReportOutcome)
    (completed : List (String × JobResult)) : List (String × JobResult) :=
  match snapshot with
  | [] => completed
  | (jid, r) :: rest =>
      match report jid r with
      | .success => flushLoop rest report (assocErase completed jid)
      | .failure => flushLoop rest report completed
      | .error => flushLoop rest report completed

/-- `NodeAgent.process_job_results`: flush the completed set against the
reporting channel. -/
def processJobResults (s : JMState)
    (report : String → JobResult → ReportOutcome) : JMState :=
  { s with completedJobs := flushLoop (getCompletedJobs s) report s.completedJobs }

/-- The scheduling configuration consumed by `_can_process_jobs_now`:
`working_hours_only`, `working_days`, and the optional
`working_hours.start` / `working_hours.end` entries (defaults `"18:00"` /
`"08:00"` supplied at the call sites via `.get`). -/
structure SchedulingConfig where
  workingHoursOnly : Bool
  workingDays : List String
  whStart : Option String
  whEnd : Option String
deriving Repr, DecidableEq

/-- Python's `<` on strings: lexicographic comparison of code points. -/
def strLtB : List Char → List Char → Bool
  | [], [] => false
  | [], _ :: _ => true
  | _ :: _, [] => false
  | a :: as, b :: bs =>
      if a.toNat < b.toNat then true
      else if b.toNat < a.toNat then false
      else strLtB as bs

/-- Python `s < t` on `str`. -/
def pyLt (s t : String) : Bool := strLtB s.data t.data

/-- Python `s <= t` on `str`. -/
def pyLe (s t : String) : Bool := pyLt s t || s == t

/-- `NodeAgent._can_process_jobs_now`, with the current instant supplied as
`strftime("%A")` day name and `strftime("%H:%M")` clock string; Python string
comparison is the lexicographic order on code points (`pyLt`/`pyLe`). -/
def canProcessJobsNow (cfg : SchedulingConfig) (dayName currentTime : String) :
    Bool :=
  if !cfg.workingHoursOnly then true
  else if dayName ∉ cfg.workingDays then false
  else
    let startTime := cfg.whStart.getD "18:00"
    let endTime := cfg.whEnd.getD "08:00"
    if pyLt endTime startTime then
      pyLe startTime currentTime || pyLe currentTime endTime
    else
      pyLe startTime currentTime && pyLe currentTime endTime

/-! ## Job execution and timeouts (jobs/base_job.py, core/job_manager.py) -/

/-- Behaviour of the job capability chain
(`_validate_parameters`; `_prepare_input`; `_process_job`) inside
`BaseJob.execute`'s `try` block: it returns a payload, raises an exception
with a message, or never returns at all. -/
inductive ProcessBehavior where
  | returns (payload : String)
  | raises (message : String)
  | neverReturns
deriving Repr, DecidableEq

/-- The result dict built by `BaseJob.execute` (processing-stats timestamps
abstracted away): the `try` arm yields `status="completed"` with the payload,
the `except` arm yields `status="failed"` whose error message is exactly the
exception's message. -/
structure ExecOutcome where
  status : String
  payload : Option String
  errorMessage : Option String
deriving Repr, DecidableEq

/-- `JobManager._execute_job`'s call `result = job.execute()`: a synchronous,
unguarded call.  The job's `timeout_seconds` field (read from the job data in
`BaseJob.__init__`, default 3600) is passed in to show it is never consulted;
if the capability never returns, no result is ever produced (`none`) — there
is no timeout branch anywhere on this path. -/
def executeJobResult (timeoutSeconds : ℕ) (b : ProcessBehavior) :
    Option ExecOutcome :=
  match b with
  | .returns p => some { status := "completed", payload := some p, errorMessage := none }
  | .raises e => some { status := "failed", payload := none, errorMessage := some e }
  | .neverReturns => none

/-! ## Invariants and reachability -/

/-- The ledger mutual-exclusion invariant: no id is duplicated inside the
queue, the active set, or the completed set, the three are pairwise disjoint,
and every in-flight execution belongs to an active job. -/
def JMInv (s : JMState) : Prop :=
  (queueIds s.jobQueue).Nodup ∧
  s.activeJobs.Nodup ∧
  (assocKeys s.completedJobs).Nodup ∧
  s.pendingExec.Nodup ∧
  (∀ j ∈ queueIds s.jobQueue, j ∉ s.activeJobs ∧ j ∉ assocKeys s.completedJobs) ∧
  (∀ j ∈ s.activeJobs, j ∉ assocKeys s.completedJobs) ∧
  (∀ j ∈ s.pendingExec, j ∈ s.activeJobs)

/-- States reachable from the initial job manager under schedules in which the
server never resends an assignment whose id is still sitting in the pending
FIFO queue (`add_job` does not inspect the queue, so such resends are the one
admission path it cannot reject — see the counterexample for claim C1). -/
inductive ReachDistinct (limit : ℕ) : JMState → Prop where
  | init : ReachDistinct limit initJM
  | add (s : JMState) (jd : JobData) (h : ReachDistinct limit s)
      (hfresh : ∀ jid, jd.jobId = some jid → jid ∉ queueIds s.jobQueue) :
      ReachDistinct limit (addJob s jd).2
  | dispatch (s : JMState) (h : ReachDistinct limit s) :
      ReachDistinct limit (workerIteration limit s)
  | finishOk (s : JMState) (jid : String) (r : JobResult)
      (h : ReachDistinct limit s) : ReachDistinct limit (finishSuccess s jid r)
  | finishErr (s : JMState) (jid : String) (h : ReachDistinct limit s) :
      ReachDistinct limit (finishFailure s jid)
  | ack (s : JMState) (jid : String) (h : ReachDistinct limit s) :
      ReachDistinct limit (removeCompletedJob s jid)

/-! ## Theorems -/

lemma canAcceptJobs_eq_false_iff (m : MonitorState) :
    canAcceptJobs m = false ↔
      (m.avgCpuPercent > m.maxCpuPercent ∨
       m.avgMemoryPercent > m.maxMemoryPercent ∨
       m.currentFreeDiskSpaceMb < m.minFreeDiskSpaceMb) := by
  unfold canAcceptJobs
  split_ifs with h1 h2 h3 <;> simp_all

lemma canAcceptJobs_eq_true_iff (m : MonitorState) :
    canAcceptJobs m = true ↔
      (¬ m.avgCpuPercent > m.maxCpuPercent ∧
       ¬ m.avgMemoryPercent > m.maxMemoryPercent ∧
       ¬ m.currentFreeDiskSpaceMb < m.minFreeDiskSpaceMb) := by
  unfold canAcceptJobs
  split_ifs with h1 h2 h3 <;> simp_all

/-- Claim C3: `can_accept_jobs` returns false iff the averaged CPU percent is
strictly above `max_cpu_percent`, or the averaged memory percent is strictly
above `max_memory_percent`, or the latest free-disk reading is strictly below
`min_free_disk_space_mb`; otherwise it returns true. -/
theorem canAcceptJobs_false_iff (m : MonitorState) :
    canAcceptJobs m = false ↔
      (m.avgCpuPercent > m.maxCpuPercent ∨
       m.avgMemoryPercent > m.maxMemoryPercent ∨
       m.currentFreeDiskSpaceMb < m.minFreeDiskSpaceMb) :=
  canAcceptJobs_eq_false_iff m

/-- Claim C2 (code bug): `JobManager._execute_job` calls `job.execute()` with
no timeout machinery whatsoever.  With `timeoutSeconds = 1` and a capability
that never returns, no `JobResult` is ever produced — in particular no
timeout-classified failure; the outcome is independent of `timeoutSeconds`;
and every failed result the path can produce carries exactly the raised
exception's message, so no timeout classification exists anywhere. -/
theorem execute_never_times_out :
    executeJobResult 1 ProcessBehavior.neverReturns = none ∧
    (∀ t1 t2 b, executeJobResult t1 b = executeJobResult t2 b) ∧
    (∀ t e, executeJobResult t (ProcessBehavior.raises e) =
        some { status := "failed", payload := none, errorMessage := some e }) :=
  ⟨rfl, fun t1 t2 b => by cases b <;> rfl, fun t e => rfl⟩

/-- Claim C4: `add_job` with a `job_id` already present in the active set or
the completed set returns `False` and leaves the whole state unchanged. -/
theorem addJob_rejects_known_id (s : JMState) (jd : JobData) (jid : String)
    (hid : jd.jobId = some jid)
    (hmem : jid ∈ s.activeJobs ∨ jid ∈ assocKeys s.completedJobs) :
    addJob s jd = (false, s) := by
  unfold addJob
  rw [hid]
  by_cases hE : jid = ""
  · simp [hE]
  · simp [hE, hmem]

/-- Witness for claim C4 at a concrete state: id `"j"` is active, so the
resent assignment is rejected and nothing changes. -/
theorem addJob_rejects_known_id_witness :
    addJob ⟨[], ["j"], [], ["j"]⟩ ⟨some "j", some "ocr"⟩ =
      (false, ⟨[], ["j"], [], ["j"]⟩) :=
  addJob_rejects_known_id ⟨[], ["j"], [], ["j"]⟩ ⟨some "j", some "ocr"⟩ "j"
    rfl (Or.inl (by decide))

/-- Claim C10: `add_job` with a missing or falsy `"job_id"` returns `False`
and leaves the queue, the active set, and the completed set untouched. -/
theorem addJob_requires_id (s : JMState) (jd : JobData)
    (h : jd.jobId = none ∨ jd.jobId = some "") :
    addJob s jd = (false, s) := by
  rcases h with h | h <;> simp [addJob, h]

/-- Witness for claim C10: a job assignment with an empty `"job_id"` is
rejected without touching a nonempty state. -/
theorem addJob_requires_id_witness :
    addJob ⟨[⟨some "q", some "ocr"⟩], ["a"], [("c", JobResult.completedWith "p")], ["a"]⟩
        ⟨some "", some "ocr"⟩ =
      (false, ⟨[⟨some "q", some "ocr"⟩], ["a"], [("c", JobResult.completedWith "p")], ["a"]⟩) :=
  addJob_requires_id _ _ (Or.inr rfl)

/-- Counterexample for claim C1 as stated: `add_job` never inspects the
pending queue, so resending an assignment whose id is still queued is accepted
a second time — both calls return `True` and the queue then holds two entries
for `"j"`; dispatching the first copy, letting it complete, and dispatching
the second copy even leaves `"j"` in the active set and the completed set at
the same time. -/
theorem duplicate_queued_admission_cex :
    (addJob initJM ⟨some "j", some "ocr"⟩).1 = true ∧
    (addJob (addJob initJM ⟨some "j", some "ocr"⟩).2 ⟨some "j", some "ocr"⟩).1 = true ∧
    (queueIds (runJM 2 initJM
        [Op.add ⟨some "j", some "ocr"⟩, Op.add ⟨some "j", some "ocr"⟩]).jobQueue).count "j" = 2 ∧
    ("j" ∈ (runJM 2 initJM
        [Op.add ⟨some "j", some "ocr"⟩, Op.add ⟨some "j", some "ocr"⟩, Op.dispatch,
         Op.finishOk "j" (JobResult.completedWith "p"), Op.dispatch]).activeJobs ∧
     "j" ∈ assocKeys (runJM 2 initJM
        [Op.add ⟨some "j", some "ocr"⟩, Op.add ⟨some "j", some "ocr"⟩, Op.dispatch,
         Op.finishOk "j" (JobResult.completedWith "p"), Op.dispatch]).completedJobs) := by
  decide

/-- Counterexample for claim C7 as stated: a job whose `job_type` is unknown
to the factory is admitted, and the dispatch pass then drops it with nothing
recorded anywhere — the completed set stays empty (no failed `JobResult`
exists; `_notify_job_failure` is a logging stub), so no result can ever be
surfaced to the server. -/
theorem unknown_type_no_recorded_result_cex :
    (addJob initJM ⟨some "j", some "bogus"⟩).1 = true ∧
    (runJM 2 initJM [Op.add ⟨some "j", some "bogus"⟩, Op.dispatch]).completedJobs = [] ∧
    (runJM 2 initJM [Op.add ⟨some "j", some "bogus"⟩, Op.dispatch]).activeJobs = [] ∧
    (runJM 2 initJM [Op.add ⟨some "j", some "bogus"⟩, Op.dispatch]).pendingExec = [] ∧
    (runJM 2 initJM [Op.add ⟨some "j", some "bogus"⟩, Op.dispatch]).jobQueue = [] := by
  decide

/-- Claim C7 as amended: a job spec that fails pre-execution validation in the
worker loop (unknown or missing `job_type`) never occupies an execution slot —
the dispatch pass removes it from the queue and leaves the active set, the
completed set, and the in-flight executions untouched; only the failure
notification stub runs, and no `JobResult` is recorded. -/
theorem invalid_type_never_occupies_slot (limit : ℕ) (s : JMState)
    (jd : JobData) (rest : List JobData) (jid : String)
    (hq : s.jobQueue = jd :: rest) (hcap : s.activeJobs.length < limit)
    (hid : jd.jobId = some jid) (hjid : jid ≠ "")
    (hty : jd.jobType = none ∨
      ∃ jt, jd.jobType = some jt ∧ jt ∉ knownJobTypes) :
    workerIteration limit s = { s with jobQueue := rest } := by
  rcases hty with hty | ⟨jt, hty, hunk⟩
  · simp [workerIteration, hq, hcap, hid, hjid, hty]
  · simp [workerIteration, hq, hcap, hid, hjid, hty, hunk]

/-- Witness for the amended claim C7 at a concrete state (unregistered type
`"bogus"`). -/
theorem invalid_type_never_occupies_slot_witness :
    workerIteration 2 ⟨[⟨some "j", some "bogus"⟩], [], [], []⟩ =
      ⟨[], [], [], []⟩ :=
  invalid_type_never_occupies_slot 2 ⟨[⟨some "j", some "bogus"⟩], [], [], []⟩
    ⟨some "j", some "bogus"⟩ [] "j" rfl (by decide) rfl (by decide)
    (Or.inr ⟨"bogus", rfl, by decide⟩)

/-- Claim C8: with `working_hours_only` set, `_can_process_jobs_now` returns
true iff the current day is a working day and the clock string is inside the
configured window, a window whose end is lexicographically below its start
wrapping overnight; in particular with working days `["Monday"]` and window
`18:00`–`08:00`, Monday 20:00 and Monday 07:00 are inside and Tuesday 10:00
is outside. -/
theorem canProcessJobsNow_iff (cfg : SchedulingConfig) (day time : String)
    (h : cfg.workingHoursOnly = true) :
    (canProcessJobsNow cfg day time = true ↔
      (day ∈ cfg.workingDays ∧
        (if pyLt (cfg.whEnd.getD "08:00") (cfg.whStart.getD "18:00") then
          (pyLe (cfg.whStart.getD "18:00") time = true ∨
           pyLe time (cfg.whEnd.getD "08:00") = true)
        else
          (pyLe (cfg.whStart.getD "18:00") time = true ∧
           pyLe time (cfg.whEnd.getD "08:00") = true)))) ∧
    canProcessJobsNow ⟨true, ["Monday"], some "18:00", some "08:00"⟩
      "Monday" "20:00" = true ∧
    canProcessJobsNow ⟨true, ["Monday"], some "18:00", some "08:00"⟩
      "Tuesday" "10:00" = false ∧
    canProcessJobsNow ⟨true, ["Monday"], some "18:00", some "08:00"⟩
      "Monday" "07:00" = true := by
  refine ⟨?_, by decide, by decide, by decide⟩
  unfold canProcessJobsNow
  rw [h]
  by_cases hd : day ∈ cfg.workingDays
  · simp only [Bool.not_true, if_false, hd, not_true, if_neg, if_true]
    split_ifs <;> simp_all
  · simp [hd]

/-- Witness for claim C8: the Monday 20:00 query inside the overnight
window. -/
theorem canProcessJobsNow_iff_witness :
    canProcessJobsNow ⟨true, ["Monday"], some "18:00", some "08:00"⟩
      "Monday" "20:00" = true :=
  (canProcessJobsNow_iff ⟨true, ["Monday"], some "18:00", some "08:00"⟩
    "Monday" "20:00" rfl).2.1

lemma addJob_activeJobs (s : JMState) (jd : JobData) :
    ((addJob s jd).2).activeJobs = s.activeJobs := by
  unfold addJob
  cases jd.jobId with
  | none => rfl
  | some jid => by_cases h1 : jid = "" <;> simp [h1] <;> split_ifs <;> rfl

lemma insertKey_length_le (l : List String) (k : String) :
    (insertKey l k).length ≤ l.length + 1 := by
  unfold insertKey
  split_ifs <;> simp

lemma step_active_le (limit : ℕ) (s : JMState) (op : Op)
    (h : s.activeJobs.length ≤ limit) :
    (step limit s op).activeJobs.length ≤ limit := by
  cases op with
  | add jd => rw [step, addJob_activeJobs]; exact h
  | dispatch =>
      rw [step]
      by_cases hcap : s.activeJobs.length < limit
      · cases hq : s.jobQueue with
        | nil => simp [workerIteration, hq, hcap, h]
        | cons jd rest =>
            cases hI : jd.jobId with
            | none => simp [workerIteration, hq, hcap, hI, h]
            | some jid =>
                by_cases h1 : jid = ""
                · simp [workerIteration, hq, hcap, hI, h1, h]
                · cases hT : jd.jobType with
                  | none => simp [workerIteration, hq, hcap, hI, h1, hT, h]
                  | some jt =>
                      by_cases h2 : jt ∈ knownJobTypes
                      · have hlen := insertKey_length_le s.activeJobs jid
                        simp only [workerIteration, hq, hcap, hI, if_true]
                        simp only [if_neg h1, hT, if_pos h2]
                        omega
                      · simp [workerIteration, hq, hcap, hI, h1, hT, h2, h]
      · simp [workerIteration, hcap, h]
  | finishOk jid r =>
      rw [step]
      unfold finishSuccess
      split_ifs with hp
      · exact le_trans (List.Sublist.length_le (s.activeJobs.erase_sublist jid)) h
      · exact h
  | finishErr jid =>
      rw [step]
      unfold finishFailure
      split_ifs with hp
      · exact le_trans (List.Sublist.length_le (s.activeJobs.erase_sublist jid)) h
      · exact h
  | ack jid => exact h

lemma runJM_active_le (limit : ℕ) (ops : List Op) (s : JMState)
    (h : s.activeJobs.length ≤ limit) :
    (runJM limit s ops).activeJobs.length ≤ limit := by
  induction ops generalizing s with
  | nil => exact h
  | cons op rest ih =>
      exact ih (step limit s op) (step_active_le limit s op h)

/-- Claim C5: for every interleaving of admissions, dispatch passes,
completions, failures, and acknowledgements, the number of active jobs never
exceeds `concurrent_jobs` — the worker loop only moves a job into the active
set after `has_capacity()` held, and completion only removes entries. -/
theorem activeJobs_bounded (limit : ℕ) (ops : List Op) :
    (runJM limit initJM ops).activeJobs.length ≤ limit :=
  runJM_active_le limit ops initJM (Nat.zero_le limit)

lemma trim_lastN (n : ℕ) (l : List ℚ) (a : ℚ) :
    trimHistory (lastN n l ++ [a]) n = lastN n (l ++ [a]) := by
  unfold trimHistory lastN
  simp only [List.length_append, List.length_drop, List.length_cons,
    List.length_nil, Nat.zero_add]
  split_ifs with hc
  · have hc2 : n ≤ l.length := by omega
    rw [← List.drop_one, List.drop_append_eq_append_drop,
      List.drop_append_eq_append_drop, List.drop_drop]
    simp only [List.length_drop, List.length_cons, List.length_nil]
    have e1 : l.length - n + 1 = l.length + 1 - n := by omega
    have e2 : 1 - (l.length - (l.length - n)) = l.length + 1 - n - l.length := by
      omega
    rw [e1, e2]
  · have hc2 : l.length < n := by omega
    rw [show l.length - n = 0 from by omega,
      show l.length + 1 - n = 0 from by omega]
    simp

lemma runMonitor_cons (m : MonitorState) (r : Reading) (rs : List Reading) :
    runMonitor m (r :: rs) = runMonitor (sampleStep m r) rs := rfl

lemma runMonitor_concat (m : MonitorState) (rs : List Reading) (r : Reading) :
    runMonitor m (rs ++ [r]) = sampleStep (runMonitor m rs) r := by
  simp [runMonitor]

lemma runMonitor_historySize (m : MonitorState) (rs : List Reading) :
    (runMonitor m rs).historySize = m.historySize := by
  induction rs generalizing m with
  | nil => rfl
  | cons r rest ih => rw [runMonitor_cons, ih]; rfl

lemma runMonitor_maxCpu (m : MonitorState) (rs : List Reading) :
    (runMonitor m rs).maxCpuPercent = m.maxCpuPercent := by
  induction rs generalizing m with
  | nil => rfl
  | cons r rest ih => rw [runMonitor_cons, ih]; rfl

lemma runMonitor_maxMem (m : MonitorState) (rs : List Reading) :
    (runMonitor m rs).maxMemoryPercent = m.maxMemoryPercent := by
  induction rs generalizing m with
  | nil => rfl
  | cons r rest ih => rw [runMonitor_cons, ih]; rfl

lemma runMonitor_minDisk (m : MonitorState) (rs : List Reading) :
    (runMonitor m rs).minFreeDiskSpaceMb = m.minFreeDiskSpaceMb := by
  induction rs generalizing m with
  | nil => rfl
  | cons r rest ih => rw [runMonitor_cons, ih]; rfl

lemma runMonitor_cpuHistory (mc mm : ℚ) (md : ℤ) (rs : List Reading) :
    (runMonitor (initMonitor mc mm md) rs).cpuHistory =
      lastN 12 (rs.map Reading.cpu) := by
  induction rs using List.reverseRecOn with
  | nil => rfl
  | append_singleton l r ih =>
      rw [runMonitor_concat]
      show trimHistory
          ((runMonitor (initMonitor mc mm md) l).cpuHistory ++ [r.cpu])
          (runMonitor (initMonitor mc mm md) l).historySize = _
      rw [ih, runMonitor_historySize]
      show trimHistory (lastN 12 (l.map Reading.cpu) ++ [r.cpu]) 12 = _
      rw [trim_lastN]
      simp

lemma runMonitor_memHistory (mc mm : ℚ) (md : ℤ) (rs : List Reading) :
    (runMonitor (initMonitor mc mm md) rs).memoryHistory =
      lastN 12 (rs.map Reading.mem) := by
  induction rs using List.reverseRecOn with
  | nil => rfl
  | append_singleton l r ih =>
      rw [runMonitor_concat]
      show trimHistory
          ((runMonitor (initMonitor mc mm md) l).memoryHistory ++ [r.mem])
          (runMonitor (initMonitor mc mm md) l).historySize = _
      rw [ih, runMonitor_historySize]
      show trimHistory (lastN 12 (l.map Reading.mem) ++ [r.mem]) 12 = _
      rw [trim_lastN]
      simp

lemma runMonitor_disk (mc mm : ℚ) (md : ℤ) (rs : List Reading) :
    (runMonitor (initMonitor mc mm md) rs).currentFreeDiskSpaceMb =
      ((rs.map Reading.disk).getLast?).getD 0 := by
  induction rs using List.reverseRecOn with
  | nil => rfl
  | append_singleton l r ih =>
      rw [runMonitor_concat]
      show r.disk = _
      simp

lemma trimHistory_append_ne_nil (h : List ℚ) (a : ℚ) (n : ℕ) (hn : 1 ≤ n) :
    trimHistory (h ++ [a]) n ≠ [] := by
  unfold trimHistory
  split_ifs with hc
  · intro hnil
    have := congrArg List.length hnil
    simp at this
    simp [this] at hc
    omega
  · simp

lemma runMonitor_avgCpu (mc mm : ℚ) (md : ℤ) (rs : List Reading) :
    (runMonitor (initMonitor mc mm md) rs).avgCpuPercent =
      (if (runMonitor (initMonitor mc mm md) rs).cpuHistory.length = 0 then 0
       else (runMonitor (initMonitor mc mm md) rs).cpuHistory.sum /
         ((runMonitor (initMonitor mc mm md) rs).cpuHistory.length : ℚ)) := by
  induction rs using List.reverseRecOn with
  | nil => rfl
  | append_singleton l r ih =>
      rw [runMonitor_concat]
      have hsz := runMonitor_historySize (initMonitor mc mm md) l
      have hne : (sampleStep (runMonitor (initMonitor mc mm md) l) r).cpuHistory ≠ [] := by
        show trimHistory _ _ ≠ []
        rw [hsz]
        exact trimHistory_append_ne_nil _ _ 12 (by omega)
      rw [if_neg (by simpa [List.length_eq_zero] using hne)]
      rfl

lemma runMonitor_avgMem (mc mm : ℚ) (md : ℤ) (rs : List Reading) :
    (runMonitor (initMonitor mc mm md) rs).avgMemoryPercent =
      (if (runMonitor (initMonitor mc mm md) rs).memoryHistory.length = 0 then 0
       else (runMonitor (initMonitor mc mm md) rs).memoryHistory.sum /
         ((runMonitor (initMonitor mc mm md) rs).memoryHistory.length : ℚ)) := by
  induction rs using List.reverseRecOn with
  | nil => rfl
  | append_singleton l r ih =>
      rw [runMonitor_concat]
      have hsz := runMonitor_historySize (initMonitor mc mm md) l
      have hne : (sampleStep (runMonitor (initMonitor mc mm md) l) r).memoryHistory ≠ [] := by
        show trimHistory _ _ ≠ []
        rw [hsz]
        exact trimHistory_append_ne_nil _ _ 12 (by omega)
      rw [if_neg (by simpa [List.length_eq_zero] using hne)]
      rfl

/-- Claim C9: every sample appends the CPU and memory readings to their
histories, keeping only the last 12 (`history_size`) entries with the oldest
evicted first; the averaged values are the arithmetic means of the entries
currently in each buffer; the free-disk value is the latest reading, not an
average; and concretely 12 samples of CPU 95% against threshold 80% make
`can_accept_jobs` false while 12 further samples of 50% roll the window over
and make it true again. -/
theorem monitor_sampling_window (mc mm : ℚ) (md : ℤ) (rs : List Reading) :
    (runMonitor (initMonitor mc mm md) rs).cpuHistory =
      lastN 12 (rs.map Reading.cpu) ∧
    (runMonitor (initMonitor mc mm md) rs).memoryHistory =
      lastN 12 (rs.map Reading.mem) ∧
    (runMonitor (initMonitor mc mm md) rs).cpuHistory.length ≤ 12 ∧
    (runMonitor (initMonitor mc mm md) rs).memoryHistory.length ≤ 12 ∧
    (runMonitor (initMonitor mc mm md) rs).avgCpuPercent =
      (if (runMonitor (initMonitor mc mm md) rs).cpuHistory.length = 0 then 0
       else (runMonitor (initMonitor mc mm md) rs).cpuHistory.sum /
         ((runMonitor (initMonitor mc mm md) rs).cpuHistory.length : ℚ)) ∧
    (runMonitor (initMonitor mc mm md) rs).avgMemoryPercent =
      (if (runMonitor (initMonitor mc mm md) rs).memoryHistory.length = 0 then 0
       else (runMonitor (initMonitor mc mm md) rs).memoryHistory.sum /
         ((runMonitor (initMonitor mc mm md) rs).memoryHistory.length : ℚ)) ∧
    (runMonitor (initMonitor mc mm md) rs).currentFreeDiskSpaceMb =
      ((rs.map Reading.disk).getLast?).getD 0 ∧
    canAcceptJobs (runMonitor (initMonitor 80 70 1000)
      (List.replicate 12 ⟨95, 0, 100000⟩)) = false ∧
    canAcceptJobs (runMonitor (initMonitor 80 70 1000)
      (List.replicate 12 ⟨95, 0, 100000⟩ ++ List.replicate 12 ⟨50, 0, 100000⟩)) =
      true := by
  refine ⟨runMonitor_cpuHistory mc mm md rs, runMonitor_memHistory mc mm md rs,
    ?_, ?_, runMonitor_avgCpu mc mm md rs, runMonitor_avgMem mc mm md rs,
    runMonitor_disk mc mm md rs, ?_, ?_⟩
  · rw [runMonitor_cpuHistory]
    unfold lastN
    simp only [List.length_drop]
    omega
  · rw [runMonitor_memHistory]
    unfold lastN
    simp only [List.length_drop]
    omega
  · have hcpu : (runMonitor (initMonitor 80 70 1000)
        (List.replicate 12 (⟨95, 0, 100000⟩ : Reading))).cpuHistory =
        List.replicate 12 (95 : ℚ) := by
      rw [runMonitor_cpuHistory]
      simp [lastN, List.map_replicate]
    have havg : (runMonitor (initMonitor 80 70 1000)
        (List.replicate 12 (⟨95, 0, 100000⟩ : Reading))).avgCpuPercent = 95 := by
      rw [runMonitor_avgCpu, hcpu]
      simp [List.sum_replicate]
      norm_num
    refine (canAcceptJobs_eq_false_iff _).mpr (Or.inl ?_)
    rw [havg, runMonitor_maxCpu]
    norm_num [initMonitor]
  · have hcpu : (runMonitor (initMonitor 80 70 1000)
        (List.replicate 12 (⟨95, 0, 100000⟩ : Reading) ++
         List.replicate 12 (⟨50, 0, 100000⟩ : Reading))).cpuHistory =
        List.replicate 12 (50 : ℚ) := by
      rw [runMonitor_cpuHistory]
      simp [lastN, List.map_append, List.map_replicate,
        List.drop_append_eq_append_drop, List.drop_replicate]
    have hmem : (runMonitor (initMonitor 80 70 1000)
        (List.replicate 12 (⟨95, 0, 100000⟩ : Reading) ++
         List.replicate 12 (⟨50, 0, 100000⟩ : Reading))).memoryHistory =
        List.replicate 12 (0 : ℚ) := by
      rw [runMonitor_memHistory]
      simp [lastN, List.map_append, List.map_replicate,
        List.drop_append_eq_append_drop, List.drop_replicate]
    have havg : (runMonitor (initMonitor 80 70 1000)
        (List.replicate 12 (⟨95, 0, 100000⟩ : Reading) ++
         List.replicate 12 (⟨50, 0, 100000⟩ : Reading))).avgCpuPercent = 50 := by
      rw [runMonitor_avgCpu, hcpu]
      simp [List.sum_replicate]
      norm_num
    have havgm : (runMonitor (initMonitor 80 70 1000)
        (List.replicate 12 (⟨95, 0, 100000⟩ : Reading) ++
         List.replicate 12 (⟨50, 0, 100000⟩ : Reading))).avgMemoryPercent = 0 := by
      rw [runMonitor_avgMem, hmem]
      simp [List.sum_replicate]
    have hdisk : (runMonitor (initMonitor 80 70 1000)
        (List.replicate 12 (⟨95, 0, 100000⟩ : Reading) ++
         List.replicate 12 (⟨50, 0, 100000⟩ : Reading))).currentFreeDiskSpaceMb =
        100000 := by
      rw [runMonitor_disk]
      rw [List.map_append]
      rw [List.getLast?_append_of_ne_nil _ (by simp)]
      rw [show List.replicate 12 (⟨50, 0, 100000⟩ : Reading) =
        List.replicate 11 (⟨50, 0, 100000⟩ : Reading) ++ [⟨50, 0, 100000⟩] from
        List.replicate_succ' 11 _]
      rw [List.map_append, List.getLast?_append_of_ne_nil _ (by simp)]
      rfl
    refine (canAcceptJobs_eq_true_iff _).mpr ⟨?_, ?_, ?_⟩
    · rw [havg, runMonitor_maxCpu]
      norm_num [initMonitor]
    · rw [havgm, runMonitor_maxMem]
      norm_num [initMonitor]
    · rw [hdisk, runMonitor_minDisk]
      norm_num [initMonitor]

lemma mem_assocErase_of_ne (l : List (String × JobResult)) (k a : String)
    (b : JobResult) (h : (a, b) ∈ l) (hne : a ≠ k) :
    (a, b) ∈ assocErase l k := by
  induction l with
  | nil => simp at h
  | cons p rest ih =>
      obtain ⟨k1, v1⟩ := p
      rw [assocErase]
      rcases List.mem_cons.mp h with heq | hrest
      · obtain ⟨h1, h2⟩ := Prod.mk.injEq .. ▸ heq
        subst h1; subst h2
        rw [if_neg (by exact fun hk => hne hk)]
        exact List.mem_cons_self _ _
      · split_ifs with hk
        · exact hrest
        · exact List.mem_cons_of_mem _ (ih hrest)

lemma flushLoop_keeps (snapshot : List (String × JobResult))
    (report : String → JobResult → ReportOutcome)
    (completed : List (String × JobResult)) (jid : String) (r : JobResult)
    (hmem : (jid, r) ∈ completed)
    (hsnap : ∀ r2, (jid, r2) ∈ snapshot → report jid r2 ≠ .success) :
    (jid, r) ∈ flushLoop snapshot report completed := by
  induction snapshot generalizing completed with
  | nil => exact hmem
  | cons p rest ih =>
      obtain ⟨k, v⟩ := p
      rw [flushLoop]
      have hrest : ∀ r2, (jid, r2) ∈ rest → report jid r2 ≠ .success :=
        fun r2 h2 => hsnap r2 (List.mem_cons_of_mem _ h2)
      cases hrep : report k v with
      | success =>
          have hne : jid ≠ k := by
            intro he
            subst he
            exact hsnap v (List.mem_cons_self _ _) hrep
          exact ih (assocErase completed k)
            (mem_assocErase_of_ne completed k jid r hmem hne) hrest
      | failure => exact ih completed hmem hrest
      | error => exact ih completed hmem hrest

lemma assoc_value_unique (l : List (String × JobResult)) (jid : String)
    (r1 r2 : JobResult) (hnd : (assocKeys l).Nodup)
    (h1 : (jid, r1) ∈ l) (h2 : (jid, r2) ∈ l) : r1 = r2 := by
  induction l with
  | nil => simp at h1
  | cons p rest ih =>
      obtain ⟨k, v⟩ := p
      rw [assocKeys, List.map_cons, List.nodup_cons] at hnd
      obtain ⟨hknot, hndrest⟩ := hnd
      rcases List.mem_cons.mp h1 with he1 | hr1 <;>
        rcases List.mem_cons.mp h2 with he2 | hr2
      · rw [Prod.mk.injEq] at he1 he2
        rw [he1.2, he2.2]
      · rw [Prod.mk.injEq] at he1
        exfalso
        apply hknot
        rw [← he1.1]
        exact List.mem_map.mpr ⟨(jid, r2), hr2, rfl⟩
      · rw [Prod.mk.injEq] at he2
        exfalso
        apply hknot
        rw [← he2.1]
        exact List.mem_map.mpr ⟨(jid, r1), hr1, rfl⟩
      · exact ih hndrest hr1 hr2

/-- Claim C6: `get_completed_jobs` hands out a non-destructive copy, and a
completed entry survives `process_job_results` whenever its report did not
return success (returned `False` or raised) — entries are removed only on a
successful report, so a completed result is never silently dropped and is
retried on the next flush cycle. -/
theorem completed_kept_until_acknowledged (s : JMState)
    (report : String → JobResult → ReportOutcome) (jid : String)
    (r : JobResult) (hnd : (assocKeys s.completedJobs).Nodup)
    (hmem : (jid, r) ∈ s.completedJobs)
    (hfail : report jid r ≠ .success) :
    getCompletedJobs s = s.completedJobs ∧
    (jid, r) ∈ (processJobResults s report).completedJobs := by
  refine ⟨rfl, ?_⟩
  show (jid, r) ∈ flushLoop (getCompletedJobs s) report s.completedJobs
  refine flushLoop_keeps _ report _ jid r hmem ?_
  intro r2 h2
  rw [assoc_value_unique s.completedJobs jid r2 r hnd h2 hmem]
  exact hfail

/-- Witness for claim C6: a completed result whose report returns `False`
stays in the completed set. -/
theorem completed_kept_until_acknowledged_witness :
    getCompletedJobs ⟨[], [], [("j", JobResult.completedWith "p")], []⟩ =
      [("j", JobResult.completedWith "p")] ∧
    ("j", JobResult.completedWith "p") ∈
      (processJobResults ⟨[], [], [("j", JobResult.completedWith "p")], []⟩
        (fun _ _ => ReportOutcome.failure)).completedJobs :=
  completed_kept_until_acknowledged
    ⟨[], [], [("j", JobResult.completedWith "p")], []⟩
    (fun _ _ => ReportOutcome.failure) "j" (JobResult.completedWith "p")
    (by decide) (by decide) (by decide)

lemma queueIds_append (q1 q2 : List JobData) :
    queueIds (q1 ++ q2) = queueIds q1 ++ queueIds q2 := by
  unfold queueIds
  rw [List.filterMap_append]

lemma queueIds_cons_some (jd : JobData) (rest : List JobData) (jid : String)
    (hid : jd.jobId = some jid) :
    queueIds (jd :: rest) = jid :: queueIds rest := by
  unfold queueIds
  rw [List.filterMap_cons, hid]

lemma queueIds_cons_none (jd : JobData) (rest : List JobData)
    (hid : jd.jobId = none) :
    queueIds (jd :: rest) = queueIds rest := by
  unfold queueIds
  rw [List.filterMap_cons, hid]

lemma assocKeys_assocSet_of_not_mem (l : List (String × JobResult))
    (k : String) (v : JobResult) (h : k ∉ assocKeys l) :
    assocKeys (assocSet l k v) = assocKeys l ++ [k] := by
  induction l with
  | nil => rfl
  | cons p rest ih =>
      obtain ⟨k1, v1⟩ := p
      rw [assocKeys, List.map_cons, List.mem_cons, not_or] at h
      have hk1 : k1 ≠ k := fun he => h.1 he.symm
      have hrest : k ∉ assocKeys rest := h.2
      rw [assocSet, if_neg hk1]
      show k1 :: assocKeys (assocSet rest k v) = (k1 :: assocKeys rest) ++ [k]
      rw [ih hrest]
      rfl

lemma assocKeys_assocErase (l : List (String × JobResult)) (k : String) :
    assocKeys (assocErase l k) = (assocKeys l).erase k := by
  induction l with
  | nil => rfl
  | cons p rest ih =>
      obtain ⟨k1, v1⟩ := p
      rw [assocErase]
      split_ifs with hk
      · subst hk
        show assocKeys rest = (k1 :: assocKeys rest).erase k1
        rw [List.erase_cons_head]
      · show k1 :: assocKeys (assocErase rest k) = (k1 :: assocKeys rest).erase k
        rw [List.erase_cons_tail, ih]
        simp [hk]

lemma insertKey_of_not_mem (l : List String) (k : String) (h : k ∉ l) :
    insertKey l k = l ++ [k] := by
  unfold insertKey
  rw [if_neg h]

lemma jminv_initJM : JMInv initJM := by
  refine ⟨?_, ?_, ?_, ?_, ?_, ?_, ?_⟩ <;> simp [initJM, queueIds, assocKeys]

lemma inv_addJob (s : JMState) (jd : JobData)
    (hfresh : ∀ jid, jd.jobId = some jid → jid ∉ queueIds s.jobQueue)
    (hinv : JMInv s) : JMInv (addJob s jd).2 := by
  obtain ⟨h1, h2, h3, h4, h5, h6, h7⟩ := hinv
  cases hid : jd.jobId with
  | none =>
      have ha : (addJob s jd).2 = s := by simp [addJob, hid]
      rw [ha]
      exact ⟨h1, h2, h3, h4, h5, h6, h7⟩
  | some jid =>
      by_cases he : jid = ""
      · have ha : (addJob s jd).2 = s := by simp [addJob, hid, he]
        rw [ha]
        exact ⟨h1, h2, h3, h4, h5, h6, h7⟩
      · by_cases hm : jid ∈ s.activeJobs ∨ jid ∈ assocKeys s.completedJobs
        · have ha : (addJob s jd).2 = s := by simp [addJob, hid, he, hm]
          rw [ha]
          exact ⟨h1, h2, h3, h4, h5, h6, h7⟩
        · have ha : (addJob s jd).2 = { s with jobQueue := s.jobQueue ++ [jd] } := by
            simp [addJob, hid, he, hm]
          rw [ha]
          push_neg at hm
          have hfq := hfresh jid hid
          have hq : queueIds (s.jobQueue ++ [jd]) =
              queueIds s.jobQueue ++ [jid] := by
            rw [queueIds_append, queueIds_cons_some jd [] jid hid]
            rfl
          refine ⟨?_, h2, h3, h4, ?_, h6, h7⟩
          · show (queueIds (s.jobQueue ++ [jd])).Nodup
            rw [hq]
            refine List.Nodup.append h1 (List.nodup_singleton jid) ?_
            intro x hx hx2
            rw [List.mem_singleton] at hx2
            subst hx2
            exact hfq hx
          · show ∀ j ∈ queueIds (s.jobQueue ++ [jd]),
              j ∉ s.activeJobs ∧ j ∉ assocKeys s.completedJobs
            rw [hq]
            intro j hj
            rcases List.mem_append.mp hj with hold | hnew
            · exact h5 j hold
            · rw [List.mem_singleton] at hnew
              subst hnew
              exact hm

lemma inv_worker (limit : ℕ) (s : JMState) (hinv : JMInv s) :
    JMInv (workerIteration limit s) := by
  obtain ⟨h1, h2, h3, h4, h5, h6, h7⟩ := hinv
  by_cases hcap : s.activeJobs.length < limit
  case neg =>
    have hw : workerIteration limit s = s := by simp [workerIteration, hcap]
    rw [hw]
    exact ⟨h1, h2, h3, h4, h5, h6, h7⟩
  cases hq : s.jobQueue with
  | nil =>
      have hw : workerIteration limit s = s := by
        simp [workerIteration, hq, hcap]
      rw [hw]
      exact ⟨h1, h2, h3, h4, h5, h6, h7⟩
  | cons jd rest =>
      rw [hq] at h1 h5
      have hdrop : JMInv { s with jobQueue := rest } := by
        cases hid : jd.jobId with
        | none =>
            rw [queueIds_cons_none jd rest hid] at h1 h5
            exact ⟨h1, h2, h3, h4, h5, h6, h7⟩
        | some jid =>
            rw [queueIds_cons_some jd rest jid hid] at h1 h5
            rw [List.nodup_cons] at h1
            exact ⟨h1.2, h2, h3, h4,
              fun j hj => h5 j (List.mem_cons_of_mem jid hj), h6, h7⟩
      cases hid : jd.jobId with
      | none =>
          have hw : workerIteration limit s = { s with jobQueue := rest } := by
            simp [workerIteration, hq, hcap, hid]
          rw [hw]
          exact hdrop
      | some jid =>
          by_cases he : jid = ""
          · have hw : workerIteration limit s = { s with jobQueue := rest } := by
              simp [workerIteration, hq, hcap, hid, he]
            rw [hw]
            exact hdrop
          · cases hty : jd.jobType with
            | none =>
                have hw : workerIteration limit s = { s with jobQueue := rest } := by
                  simp [workerIteration, hq, hcap, hid, he, hty]
                rw [hw]
                exact hdrop
            | some jt =>
                by_cases hk : jt ∈ knownJobTypes
                case neg =>
                  have hw : workerIteration limit s = { s with jobQueue := rest } := by
                    simp [workerIteration, hq, hcap, hid, he, hty, hk]
                  rw [hw]
                  exact hdrop
                have hw : workerIteration limit s =
                    { s with jobQueue := rest
                             activeJobs := insertKey s.activeJobs jid
                             pendingExec := s.pendingExec ++ [jid] } := by
                  simp [workerIteration, hq, hcap, hid, he, hty, hk]
                rw [hw]
                rw [queueIds_cons_some jd rest jid hid, List.nodup_cons] at h1
                have hhead := h5 jid
                  (by rw [queueIds_cons_some jd rest jid hid]; exact List.mem_cons_self jid _)
                have hins : insertKey s.activeJobs jid = s.activeJobs ++ [jid] :=
                  insertKey_of_not_mem s.activeJobs jid hhead.1
                have hjp : jid ∉ s.pendingExec := fun hp => hhead.1 (h7 jid hp)
                refine ⟨h1.2, ?_, h3, ?_, ?_, ?_, ?_⟩
                · show (insertKey s.activeJobs jid).Nodup
                  rw [hins]
                  refine List.Nodup.append h2 (List.nodup_singleton jid) ?_
                  intro x hx hx2
                  rw [List.mem_singleton] at hx2
                  subst hx2
                  exact hhead.1 hx
                · show (s.pendingExec ++ [jid]).Nodup
                  refine List.Nodup.append h4 (List.nodup_singleton jid) ?_
                  intro x hx hx2
                  rw [List.mem_singleton] at hx2
                  subst hx2
                  exact hjp hx
                · show ∀ j ∈ queueIds rest,
                    j ∉ insertKey s.activeJobs jid ∧ j ∉ assocKeys s.completedJobs
                  intro j hj
                  have hold := h5 j (queueIds_cons_some jd rest jid hid ▸
                    List.mem_cons_of_mem jid hj)
                  have hne : j ≠ jid := fun hcme => h1.1 (hcme ▸ hj)
                  refine ⟨?_, hold.2⟩
                  rw [hins, List.mem_append, List.mem_singleton]
                  rintro (hx | hx)
                  · exact hold.1 hx
                  · exact hne hx
                · show ∀ j ∈ insertKey s.activeJobs jid,
                    j ∉ assocKeys s.completedJobs
                  intro j hj
                  rw [hins, List.mem_append, List.mem_singleton] at hj
                  rcases hj with hx | hx
                  · exact h6 j hx
                  · subst hx
                    exact hhead.2
                · show ∀ j ∈ s.pendingExec ++ [jid], j ∈ insertKey s.activeJobs jid
                  intro j hj
                  rw [List.mem_append, List.mem_singleton] at hj
                  rw [hins, List.mem_append, List.mem_singleton]
                  rcases hj with hx | hx
                  · exact Or.inl (h7 j hx)
                  · exact Or.inr hx

lemma inv_finishOk (s : JMState) (jid : String) (r : JobResult)
    (hinv : JMInv s) : JMInv (finishSuccess s jid r) := by
  obtain ⟨h1, h2, h3, h4, h5, h6, h7⟩ := hinv
  unfold finishSuccess
  split_ifs with hp
  case neg => exact ⟨h1, h2, h3, h4, h5, h6, h7⟩
  have hact : jid ∈ s.activeJobs := h7 jid hp
  have hnotc : jid ∉ assocKeys s.completedJobs := h6 jid hact
  have hkeys : assocKeys (assocSet s.completedJobs jid r) =
      assocKeys s.completedJobs ++ [jid] :=
    assocKeys_assocSet_of_not_mem s.completedJobs jid r hnotc
  refine ⟨h1, h2.erase jid, ?_, h4.erase jid, ?_, ?_, ?_⟩
  · rw [hkeys]
    refine List.Nodup.append h3 (List.nodup_singleton jid) ?_
    intro x hx hx2
    rw [List.mem_singleton] at hx2
    subst hx2
    exact hnotc hx
  · intro j hj
    have hold := h5 j hj
    have hne : j ≠ jid := fun he => hold.1 (he ▸ hact)
    refine ⟨?_, ?_⟩
    · intro hje
      exact hold.1 (List.mem_of_mem_erase hje)
    · rw [hkeys, List.mem_append, List.mem_singleton]
      rintro (hx | hx)
      · exact hold.2 hx
      · exact hne hx
  · intro j hj
    have hjin := List.mem_of_mem_erase hj
    have hne : j ≠ jid := by
      intro he
      subst he
      exact h2.not_mem_erase hj
    rw [hkeys, List.mem_append, List.mem_singleton]
    rintro (hx | hx)
    · exact h6 j hjin hx
    · exact hne hx
  · intro j hj
    have hjin := List.mem_of_mem_erase hj
    have hne : j ≠ jid := by
      intro he
      subst he
      exact h4.not_mem_erase hj
    exact (List.mem_erase_of_ne hne).mpr (h7 j hjin)

lemma inv_finishErr (s : JMState) (jid : String) (hinv : JMInv s) :
    JMInv (finishFailure s jid) := by
  obtain ⟨h1, h2, h3, h4, h5, h6, h7⟩ := hinv
  unfold finishFailure
  split_ifs with hp
  case neg => exact ⟨h1, h2, h3, h4, h5, h6, h7⟩
  refine ⟨h1, h2.erase jid, h3, h4.erase jid, ?_, ?_, ?_⟩
  · intro j hj
    have hold := h5 j hj
    exact ⟨fun hje => hold.1 (List.mem_of_mem_erase hje), hold.2⟩
  · intro j hj
    exact h6 j (List.mem_of_mem_erase hj)
  · intro j hj
    have hjin := List.mem_of_mem_erase hj
    have hne : j ≠ jid := by
      intro he
      subst he
      exact h4.not_mem_erase hj
    exact (List.mem_erase_of_ne hne).mpr (h7 j hjin)

lemma inv_ack (s : JMState) (jid : String) (hinv : JMInv s) :
    JMInv (removeCompletedJob s jid) := by
  obtain ⟨h1, h2, h3, h4, h5, h6, h7⟩ := hinv
  unfold removeCompletedJob
  have hkeys : assocKeys (assocErase s.completedJobs jid) =
      (assocKeys s.completedJobs).erase jid := assocKeys_assocErase _ jid
  refine ⟨h1, h2, ?_, h4, ?_, ?_, h7⟩
  · rw [hkeys]
    exact h3.erase jid
  · intro j hj
    have hold := h5 j hj
    refine ⟨hold.1, ?_⟩
    rw [hkeys]
    intro hje
    exact hold.2 (List.mem_of_mem_erase hje)
  · intro j hj
    rw [hkeys]
    intro hje
    exact h6 j hj (List.mem_of_mem_erase hje)

lemma reach_inv (limit : ℕ) (s : JMState) (h : ReachDistinct limit s) :
    JMInv s := by
  induction h with
  | init => exact jminv_initJM
  | add s jd h hfresh ih => exact inv_addJob s jd hfresh ih
  | dispatch s h ih => exact inv_worker limit s ih
  | finishOk s jid r h ih => exact inv_finishOk s jid r ih
  | finishErr s jid h ih => exact inv_finishErr s jid ih
  | ack s jid h ih => exact inv_ack s jid ih

/-- Claim C1 as amended: in every reachable state of the job manager under
schedules where the server never resends an assignment whose id is still
waiting in the pending queue, each `jobId` occurs at most once across the
pending queue, the active set, and the completed set combined — in particular
never both active and completed.  (Resends targeting ids in the active or
completed sets are always rejected, with or without the schedule restriction —
see the claim C4 theorem; the restriction is needed exactly because `add_job`
does not inspect the queue, as the counterexample shows.) -/
theorem jobId_in_at_most_one_place (limit : ℕ) (s : JMState)
    (h : ReachDistinct limit s) (jid : String) :
    (queueIds s.jobQueue).count jid + s.activeJobs.count jid +
      (assocKeys s.completedJobs).count jid ≤ 1 := by
  obtain ⟨h1, h2, h3, h4, h5, h6, h7⟩ := reach_inv limit s h
  by_cases hq : jid ∈ queueIds s.jobQueue
  · have hd := h5 jid hq
    have cq := List.nodup_iff_count_le_one.mp h1 jid
    rw [List.count_eq_zero_of_not_mem hd.1,
      List.count_eq_zero_of_not_mem hd.2]
    omega
  · rw [List.count_eq_zero_of_not_mem hq]
    by_cases ha : jid ∈ s.activeJobs
    · have ca := List.nodup_iff_count_le_one.mp h2 jid
      rw [List.count_eq_zero_of_not_mem (h6 jid ha)]
      omega
    · rw [List.count_eq_zero_of_not_mem ha]
      have cc := List.nodup_iff_count_le_one.mp h3 jid
      omega

/-- Witness for amended claim C1: the state reached by admitting job `"j"`
and dispatching it. -/
theorem jobId_in_at_most_one_place_witness :
    (queueIds (workerIteration 2 (addJob initJM ⟨some "j", some "ocr"⟩).2).jobQueue).count "j" +
      (workerIteration 2 (addJob initJM ⟨some "j", some "ocr"⟩).2).activeJobs.count "j" +
      (assocKeys (workerIteration 2 (addJob initJM ⟨some "j", some "ocr"⟩).2).completedJobs).count "j" ≤ 1 :=
  jobId_in_at_most_one_place 2 _
    (ReachDistinct.dispatch _
      (ReachDistinct.add initJM ⟨some "j", some "ocr"⟩ ReachDistinct.init
        (fun jid _ => List.not_mem_nil jid))) "j"

end NodeAgent
